import Mathlib

/-!
Shallow embedding of `dagster_open_platform/resources/dlt_resource.py`:
the dlt-resource-to-Dagster-asset bridge.  Python values that can appear in
a dlt `LoadInfo.asdict()` report are modelled by the inductive type
`JValue`; the translator, metadata normalization/extraction and
`DltDagsterResource.run` are translated function by function from the
source file.
-/

/-- A Python value as it occurs inside a dlt run report: strings, ints,
booleans, `None`, pendulum `DateTime` / `Timezone` objects (carried here
together with the string that `str(...)` renders them to), dicts with
string keys, lists, and tuples (standing for container kinds other than
`dict` / `list`, into which `_recursive_cast` does not descend). -/
inductive JValue where
  | str : String → JValue
  | int : Int → JValue
  | bool : Bool → JValue
  | null : JValue
  | datetime : String → JValue
  | timezone : String → JValue
  | dict : List (String × JValue) → JValue
  | list : List JValue → JValue
  | tuple : List JValue → JValue

/-- Is the value a `dict`? (`isinstance(value, dict)`). -/
def JValue.isDict : JValue → Bool
  | .dict _ => true
  | _ => false

/-- Is the value a `list`? (`isinstance(value, list)`). -/
def JValue.isList : JValue → Bool
  | .list _ => true
  | _ => false

/-- Is the value a pendulum rich value? (`isinstance(value, (DateTime, Timezone))`). -/
def JValue.isRich : JValue → Bool
  | .datetime _ => true
  | .timezone _ => true
  | _ => false

/-- Is the value a plain string? -/
def JValue.isStr : JValue → Bool
  | .str _ => true
  | _ => false

/-- Python `value == s` for a string literal `s`: true exactly when the
value is that string. -/
def JValue.eqStr : JValue → String → Bool
  | .str t, s => t == s
  | _, _ => false

/-- The elements of a JSON-array value; models Python iteration over a
value that is a `list` at the iterated positions of a well-formed report. -/
def JValue.toList : JValue → List JValue
  | .list xs => xs
  | _ => []

/-- The entries of a JSON-object value; models attribute access on a value
that is a `dict` at the accessed positions of a well-formed report. -/
def JValue.toDict : JValue → List (String × JValue)
  | .dict kvs => kvs
  | _ => []

/-- Python `mapping.get(key, default)` on a dict modelled as an
association list (keys are unique in a Python dict, so first match). -/
def dictGet (mapping : List (String × JValue)) (key : String) (dflt : JValue) : JValue :=
  match mapping with
  | [] => dflt
  | kv :: rest => if kv.1 == key then kv.2 else dictGet rest key dflt

mutual

/-- Python helper _recursive_cast inside _cast_load_info_metadata:
descend into dicts and lists, replace pendulum `DateTime` / `Timezone`
values by `str(value)`, return anything else unchanged. -/
def recursiveCast : JValue → JValue
  | .dict kvs => .dict (castPairs kvs)
  | .list xs => .list (castList xs)
  | .datetime s => .str s
  | .timezone s => .str s
  | v => v

/-- The dict comprehension applying _recursive_cast to every value of a dict. -/
def castPairs : List (String × JValue) → List (String × JValue)
  | [] => []
  | (k, v) :: rest => (k, recursiveCast v) :: castPairs rest

/-- The list comprehension `[_recursive_cast(item) for item in value]`. -/
def castList : List JValue → List JValue
  | [] => []
  | v :: rest => recursiveCast v :: castList rest

end

mutual

/-- A value built only from plain scalars, lists and dicts: no pendulum
rich values and no other container kinds anywhere. -/
def JValue.isPlain : JValue → Bool
  | .str _ => true
  | .int _ => true
  | .bool _ => true
  | .null => true
  | .dict kvs => JValue.plainPairs kvs
  | .list xs => JValue.plainList xs
  | .datetime _ => false
  | .timezone _ => false
  | .tuple _ => false

/-- All values of a dict are plain. -/
def JValue.plainPairs : List (String × JValue) → Bool
  | [] => true
  | (_, v) :: rest => JValue.isPlain v && JValue.plainPairs rest

/-- All elements of a list are plain. -/
def JValue.plainList : List JValue → Bool
  | [] => true
  | v :: rest => JValue.isPlain v && JValue.plainList rest

end

/-- Method _cast_load_info_metadata of DltDagsterResource: applies
`_recursive_cast` to every value of the top-level mapping. -/
def cast_load_info_metadata (mapping : List (String × JValue)) : List (String × JValue) :=
  castPairs mapping

/-- A dlt resource: the identity-relevant fields read by the bridge
(`resource.source_name`, `resource.name`, `resource.table_name`). -/
structure DltResource where
  source_name : String
  name : String
  table_name : String
deriving DecidableEq, Repr

/-- A Dagster `AssetKey`: an ordered sequence of path components.
`AssetKey("x")` is the one-component key `["x"]`. -/
abbrev AssetKey := List String

namespace DltDagsterTranslator

/-- Method get_asset_key of DltDagsterTranslator: the one-component
asset key built by prepending a fixed namespace tag, concatenating
source name and resource name with underscores. -/
def get_asset_key (resource : DltResource) : AssetKey :=
  ["dlt_" ++ resource.source_name ++ "_" ++ resource.name]

/-- Method get_deps_asset_keys of DltDagsterTranslator: one upstream
key, the underscore concatenation of source name and resource name
without the namespace tag. -/
def get_deps_asset_keys (resource : DltResource) : List AssetKey :=
  [[resource.source_name ++ "_" ++ resource.name]]

end DltDagsterTranslator

/-- A dlt source: `source.resources.values()` is an ordered collection of
resources (Python dict values in insertion order). -/
structure DltSource where
  resources : List DltResource
deriving DecidableEq, Repr

/-- Method with_resources of DltSource: restrict the source to the
resources with the given names. -/
def DltSource.with_resources (source : DltSource) (names : List String) : DltSource :=
  ⟨source.resources.filter (fun r => names.contains r.name)⟩

/-- A dlt `LoadInfo` run report, exposed to the bridge only through
`load_info.asdict()`. -/
structure LoadInfo where
  asdict : List (String × JValue)

/-- A dlt `Pipeline`, used by the bridge only as a black box
`pipeline.run(source, **kwargs) → LoadInfo`; the keyword arguments are
forwarded verbatim and folded into the function. -/
abbrev Pipeline := DltSource → LoadInfo

/-- The `AssetSpec` metadata mapping attached at graph-build time, read at
run time through its two keys `META_KEY_SOURCE = "dagster_dlt/source"` and
`META_KEY_PIPELINE = "dagster_dlt/pipeline"`; `dict.get` on a possibly
absent entry is an `Option`. -/
structure AssetMetadata where
  meta_source : Option DltSource
  meta_pipeline : Option Pipeline

/-- Whether `context` is an `AssetExecutionContext` or an
`OpExecutionContext` (`isinstance(context, AssetExecutionContext)`). -/
inductive ExecContextType where
  | assetExecution : ExecContextType
  | opExecution : ExecContextType
deriving DecidableEq, Repr

/-- The execution context fields read by `DltDagsterResource.run`:
`context.selected_asset_keys` (the selected key set, in its iteration
order), `context.is_subset`, and the values of
`context.assets_def.metadata_by_key`. -/
structure Context where
  context_type : ExecContextType
  selected_asset_keys : List AssetKey
  is_subset : Bool
  metadata_by_key_values : List AssetMetadata

/-- One completion record yielded by `run`: a `MaterializeResult` in an
asset execution context, an `AssetMaterialization` in an op context. -/
inductive CompletionRecord where
  | materializeResult (asset_key : AssetKey) (metadata : List (String × JValue))
  | assetMaterialization (asset_key : AssetKey) (metadata : List (String × JValue))

/-- The asset key carried by a completion record. -/
def CompletionRecord.key : CompletionRecord → AssetKey
  | .materializeResult k _ => k
  | .assetMaterialization k _ => k

/-- The metadata mapping carried by a completion record. -/
def CompletionRecord.meta : CompletionRecord → List (String × JValue)
  | .materializeResult _ m => m
  | .assetMaterialization _ m => m

/-- The exceptions `DltDagsterResource.run` can raise before executing the
pipeline: `StopIteration` from `next(iter(...))` on an empty
`metadata_by_key`, and the `raise Exception(...)` for missing
source/pipeline references. -/
inductive RunError where
  | stopIteration : RunError
  | configurationError : RunError
deriving DecidableEq, Repr

/-- The set of allow-listed top-level report fields
(`dlt_base_metadata_types` in `extract_resource_metadata`). -/
def dlt_base_metadata_types : List String :=
  ["first_run", "started_at", "finished_at", "dataset_name", "destination_name",
   "destination_type"]

/-- Method extract_resource_metadata of DltDagsterResource: cast the report dict,
keep the allow-listed base fields, and set `"jobs"` to the jobs across all
load packages whose `table_name` equals `resource.table_name`. -/
def extract_resource_metadata (resource : DltResource) (load_info : LoadInfo) :
    List (String × JValue) :=
  let load_info_dict := cast_load_info_metadata load_info.asdict
  let base_metadata := load_info_dict.filter (fun kv => dlt_base_metadata_types.contains kv.1)
  base_metadata ++
    [("jobs", JValue.list
      (((dictGet load_info_dict "load_packages" (JValue.list [])).toList).flatMap
        (fun load_package =>
          ((dictGet load_package.toDict "jobs" (JValue.list [])).toList).filter
            (fun job =>
              (dictGet job.toDict "table_name" JValue.null).eqStr resource.table_name))))]

/-- Lines 165–176 of the source: the mapping of asset keys to dlt
resources, `zip(context.selected_asset_keys, dlt_source.resources.values())`,
filtered — when `context.is_subset` — to the pairs whose asset key is in
`context.selected_asset_keys`. -/
def executionPairing (context : Context) (dlt_source : DltSource) :
    List (AssetKey × DltResource) :=
  let asset_key_dlt_source_resource_mapping :=
    List.zip context.selected_asset_keys dlt_source.resources
  if context.is_subset then
    asset_key_dlt_source_resource_mapping.filter
      (fun p => context.selected_asset_keys.contains p.1)
  else
    asset_key_dlt_source_resource_mapping

/-- Lines 177–182 of the source: in a subset run the source is narrowed
with `with_resources` to the resource names of the filtered pairing;
otherwise it is passed to the pipeline unchanged. -/
def narrowedSource (context : Context) (dlt_source : DltSource) : DltSource :=
  if context.is_subset then
    dlt_source.with_resources
      ((executionPairing context dlt_source).map (fun p => p.2.name))
  else
    dlt_source

/-- Method run of DltDagsterResource: resolve the stored source and pipeline from
the first asset's metadata (raising on an empty `metadata_by_key` or a
missing reference), build the pairing, narrow the source on a subset run,
execute the pipeline once, and yield one completion record per pairing
entry — a `MaterializeResult` in an asset context, an
`AssetMaterialization` otherwise. -/
def DltDagsterResource.run (context : Context) :
    Except RunError (List CompletionRecord) :=
  match context.metadata_by_key_values.head? with
  | none => .error .stopIteration
  | some first_asset_metadata =>
    match first_asset_metadata.meta_source, first_asset_metadata.meta_pipeline with
    | some dlt_source, some dlt_pipeline =>
      let pairing := executionPairing context dlt_source
      let load_info := dlt_pipeline (narrowedSource context dlt_source)
      .ok (pairing.map (fun p =>
        match context.context_type with
        | .assetExecution =>
          CompletionRecord.materializeResult p.1 (extract_resource_metadata p.2 load_info)
        | .opExecution =>
          CompletionRecord.assetMaterialization p.1 (extract_resource_metadata p.2 load_info)))
    | _, _ => .error .configurationError

/-- Replace the pipeline reference stored in the first asset's metadata;
used to state that a configuration error does not depend on the pipeline. -/
def Context.withFirstPipeline (context : Context) (p : Pipeline) : Context :=
  { context with
    metadata_by_key_values :=
      match context.metadata_by_key_values with
      | [] => []
      | first :: rest => { first with meta_pipeline := some p } :: rest }

/-- A resource named `alpha` of source `src`, loading table `alpha`. -/
def alphaRes : DltResource := ⟨"src", "alpha", "alpha"⟩

/-- A resource named `beta` of source `src`, loading table `beta`. -/
def betaRes : DltResource := ⟨"src", "beta", "beta"⟩

/-- A pipeline whose run report is empty; the bridge treats the pipeline
as a black box, so any report will do for pairing-level statements. -/
def emptyPipeline : Pipeline := fun _ => ⟨[]⟩

/-- A subset run over a source with resources `[alpha, beta]` requesting
only the key derived from `beta`, `AssetKey("dlt_src_beta")`. -/
def subsetCtx : Context :=
  ⟨.assetExecution, [["dlt_src_beta"]], true, [⟨some ⟨[alphaRes, betaRes]⟩, some emptyPipeline⟩]⟩

/-- A subset run over a source with the single resource `alpha`
requesting only `AssetKey("dlt_src_gamma")`, a key derived from no
resource of the source. -/
def gammaCtx : Context :=
  ⟨.assetExecution, [["dlt_src_gamma"]], true, [⟨some ⟨[alphaRes]⟩, some emptyPipeline⟩]⟩

/-- A full (non-subset) op-context run over the one-resource source
`[alpha]`, selecting its one derived key. -/
def opCtx : Context :=
  ⟨.opExecution, [["dlt_src_alpha"]], false, [⟨some ⟨[alphaRes]⟩, some emptyPipeline⟩]⟩

/-- A context whose first asset metadata is missing the stored source
reference (`META_KEY_SOURCE` absent) while the pipeline is present. -/
def noSourceCtx : Context :=
  ⟨.assetExecution, [], false, [⟨none, some emptyPipeline⟩]⟩

/-- Scenario C job record for table `orders`. -/
def ordersJob : JValue :=
  JValue.dict [("table_name", JValue.str "orders"), ("file_size", JValue.int 100)]

/-- Scenario C job record for table `customers`. -/
def customersJob : JValue :=
  JValue.dict [("table_name", JValue.str "customers")]

/-- Scenario C run report: two load packages, one with a job for table
`orders` and one with a job for table `customers`. -/
def scenarioCReport : LoadInfo :=
  ⟨[("first_run", JValue.bool true),
    ("load_packages", JValue.list
      [JValue.dict [("jobs", JValue.list [ordersJob])],
       JValue.dict [("jobs", JValue.list [customersJob])]])]⟩

/-- Scenario C resource loading table `orders`. -/
def ordersRes : DltResource := ⟨"src", "orders", "orders"⟩

theorem castPairs_eq_map (l : List (String × JValue)) :
    castPairs l = l.map (fun kv => (kv.1, recursiveCast kv.2)) := by
  induction l with
  | nil => rfl
  | cons kv rest ih => rw [castPairs, List.map_cons, ih]

theorem castList_eq_map (l : List JValue) : castList l = l.map recursiveCast := by
  induction l with
  | nil => rfl
  | cons v rest ih => rw [castList, List.map_cons, ih]

mutual

theorem recursiveCast_idem : ∀ v : JValue, recursiveCast (recursiveCast v) = recursiveCast v
  | .dict kvs => by rw [recursiveCast, recursiveCast, castPairs_idem kvs]
  | .list xs => by rw [recursiveCast, recursiveCast, castList_idem xs]
  | .datetime s => rfl
  | .timezone s => rfl
  | .str s => rfl
  | .int n => rfl
  | .bool b => rfl
  | .null => rfl
  | .tuple xs => rfl

theorem castPairs_idem : ∀ l : List (String × JValue), castPairs (castPairs l) = castPairs l
  | [] => rfl
  | (k, v) :: rest => by
    rw [castPairs, castPairs, recursiveCast_idem v, castPairs_idem rest]

theorem castList_idem : ∀ l : List JValue, castList (castList l) = castList l
  | [] => rfl
  | v :: rest => by rw [castList, castList, recursiveCast_idem v, castList_idem rest]

end

theorem recursiveCast_other (v : JValue) (hd : v.isDict = false) (hl : v.isList = false)
    (hr : v.isRich = false) : recursiveCast v = v := by
  cases v with
  | dict kvs => simp [JValue.isDict] at hd
  | list xs => simp [JValue.isList] at hl
  | datetime s => simp [JValue.isRich] at hr
  | timezone s => simp [JValue.isRich] at hr
  | str s => rfl
  | int n => rfl
  | bool b => rfl
  | null => rfl
  | tuple xs => rfl

mutual

theorem recursiveCast_of_isPlain : ∀ v : JValue, v.isPlain = true → recursiveCast v = v
  | .str s, _ => rfl
  | .int n, _ => rfl
  | .bool b, _ => rfl
  | .null, _ => rfl
  | .dict kvs, h => by
    rw [JValue.isPlain] at h
    rw [recursiveCast, castPairs_of_plainPairs kvs h]
  | .list xs, h => by
    rw [JValue.isPlain] at h
    rw [recursiveCast, castList_of_plainList xs h]
  | .datetime s, h => by rw [JValue.isPlain] at h; exact absurd h (by simp)
  | .timezone s, h => by rw [JValue.isPlain] at h; exact absurd h (by simp)
  | .tuple xs, h => by rw [JValue.isPlain] at h; exact absurd h (by simp)

theorem castPairs_of_plainPairs :
    ∀ l : List (String × JValue), JValue.plainPairs l = true → castPairs l = l
  | [], _ => rfl
  | (k, v) :: rest, h => by
    rw [JValue.plainPairs, Bool.and_eq_true] at h
    rw [castPairs, recursiveCast_of_isPlain v h.1, castPairs_of_plainPairs rest h.2]

theorem castList_of_plainList :
    ∀ l : List JValue, JValue.plainList l = true → castList l = l
  | [], _ => rfl
  | v :: rest, h => by
    rw [JValue.plainList, Bool.and_eq_true] at h
    rw [castList, recursiveCast_of_isPlain v h.1, castList_of_plainList rest h.2]

end

theorem dictGet_castPairs (kvs : List (String × JValue)) (key : String) (d : JValue) :
    dictGet (castPairs kvs) key (recursiveCast d) = recursiveCast (dictGet kvs key d) := by
  induction kvs with
  | nil => rfl
  | cons kv rest ih =>
    rw [castPairs_eq_map, List.map_cons, dictGet, dictGet]
    cases h : (kv.1 == key)
    · simp only [h, Bool.false_eq_true, if_false]
      rw [← castPairs_eq_map rest]
      exact ih
    · simp only [h, if_true]

theorem toList_recursiveCast (v : JValue) : (recursiveCast v).toList = castList v.toList := by
  cases v with
  | list xs => rfl
  | dict kvs => rfl
  | datetime s => rfl
  | timezone s => rfl
  | str s => rfl
  | int n => rfl
  | bool b => rfl
  | null => rfl
  | tuple xs => rfl

theorem toDict_recursiveCast (v : JValue) : (recursiveCast v).toDict = castPairs v.toDict := by
  cases v with
  | list xs => rfl
  | dict kvs => rfl
  | datetime s => rfl
  | timezone s => rfl
  | str s => rfl
  | int n => rfl
  | bool b => rfl
  | null => rfl
  | tuple xs => rfl

theorem eqStr_recursiveCast (v : JValue) (s : String) (hr : v.isRich = false) :
    (recursiveCast v).eqStr s = v.eqStr s := by
  cases v with
  | datetime t => simp [JValue.isRich] at hr
  | timezone t => simp [JValue.isRich] at hr
  | str t => rfl
  | int n => rfl
  | bool b => rfl
  | null => rfl
  | dict kvs => rfl
  | list xs => rfl
  | tuple xs => rfl

theorem dictGet_append_of_no_key (l1 l2 : List (String × JValue)) (key : String)
    (d : JValue) (h : ∀ kv ∈ l1, kv.1 ≠ key) :
    dictGet (l1 ++ l2) key d = dictGet l2 key d := by
  induction l1 with
  | nil => rfl
  | cons kv rest ih =>
    rw [List.cons_append, dictGet]
    have hne : (kv.1 == key) = false := by
      simpa using h kv (List.mem_cons_self kv rest)
    rw [hne, if_neg (by simp)]
    exact ih (fun x hx => h x (List.mem_cons_of_mem kv hx))

theorem map_snd_zip_sublist' {α β : Type} (l1 : List α) (l2 : List β) :
    List.Sublist ((List.zip l1 l2).map Prod.snd) l2 := by
  induction l1 generalizing l2 with
  | nil => simp
  | cons a rest ih =>
    cases l2 with
    | nil => simp
    | cons b l2' =>
      rw [List.zip_cons_cons, List.map_cons]
      exact List.Sublist.cons₂ b (ih l2')

theorem recursiveCast_list_nil : recursiveCast (JValue.list []) = JValue.list [] := rfl

theorem recursiveCast_null : recursiveCast JValue.null = JValue.null := rfl

theorem castJobs_comm (t : String) (pkgs : List JValue)
    (hrich : ∀ p ∈ pkgs, ∀ j ∈ (dictGet p.toDict "jobs" (JValue.list [])).toList,
        (dictGet j.toDict "table_name" JValue.null).isRich = false) :
    (castList pkgs).flatMap
        (fun load_package =>
          ((dictGet load_package.toDict "jobs" (JValue.list [])).toList).filter
            (fun job => (dictGet job.toDict "table_name" JValue.null).eqStr t))
      = ((pkgs.flatMap (fun p => (dictGet p.toDict "jobs" (JValue.list [])).toList)).filter
            (fun j => (dictGet j.toDict "table_name" JValue.null).eqStr t)).map
          recursiveCast := by
  induction pkgs with
  | nil => rfl
  | cons p rest ih =>
    have hp := hrich p (List.mem_cons_self p rest)
    have hrest : ∀ q ∈ rest, ∀ j ∈ (dictGet q.toDict "jobs" (JValue.list [])).toList,
        (dictGet j.toDict "table_name" JValue.null).isRich = false :=
      fun q hq => hrich q (List.mem_cons_of_mem p hq)
    rw [castList, List.flatMap_cons, List.flatMap_cons, List.filter_append,
      List.map_append, ih hrest]
    congr 1
    rw [toDict_recursiveCast,
      show JValue.list ([] : List JValue) = recursiveCast (JValue.list []) from rfl,
      dictGet_castPairs, toList_recursiveCast, castList_eq_map, List.filter_map]
    have hpt : ∀ j ∈ (dictGet p.toDict "jobs" (JValue.list [])).toList,
        ((fun job => (dictGet job.toDict "table_name" JValue.null).eqStr t) ∘ recursiveCast) j
          = (dictGet j.toDict "table_name" JValue.null).eqStr t := by
      intro j hj
      show (dictGet (recursiveCast j).toDict "table_name" JValue.null).eqStr t
        = (dictGet j.toDict "table_name" JValue.null).eqStr t
      rw [toDict_recursiveCast,
        show JValue.null = recursiveCast JValue.null from rfl,
        dictGet_castPairs]
      exact eqStr_recursiveCast _ t (hp j hj)
    rw [List.filter_congr hpt, recursiveCast_list_nil]

theorem dictGet_jobs_of_base (load_info_dict : List (String × JValue)) (x : JValue)
    (d : JValue) :
    dictGet
        ((load_info_dict.filter (fun kv => dlt_base_metadata_types.contains kv.1))
          ++ [("jobs", x)]) "jobs" d = x := by
  rw [dictGet_append_of_no_key]
  · rw [dictGet]
    simp
  · intro kv hkv hk
    have hmem := (List.mem_filter.mp hkv).2
    rw [hk] at hmem
    exact absurd hmem (by decide)

theorem underscore_split (s1 : List Char) : ∀ s2 n1 n2 : List Char,
    '_' ∉ s1 → '_' ∉ s2 → s1 ++ '_' :: n1 = s2 ++ '_' :: n2 → s1 = s2 ∧ n1 = n2 := by
  induction s1 with
  | nil =>
    intro s2 n1 n2 _ h2 h
    cases s2 with
    | nil => simpa using h
    | cons c t =>
      rw [List.nil_append, List.cons_append] at h
      injection h with hc _
      subst hc
      exact absurd (List.mem_cons_self _ t) h2
  | cons a s1' ih =>
    intro s2 n1 n2 h1 h2 h
    cases s2 with
    | nil =>
      rw [List.nil_append, List.cons_append] at h
      injection h with hc _
      subst hc
      exact absurd (List.mem_cons_self _ s1') h1
    | cons b t =>
      rw [List.cons_append, List.cons_append] at h
      injection h with hab htail
      have h1' : '_' ∉ s1' := fun hm => h1 (List.mem_cons_of_mem a hm)
      have h2' : '_' ∉ t := fun hm => h2 (List.mem_cons_of_mem b hm)
      obtain ⟨hst, hn⟩ := ih t n1 n2 h1' h2' htail
      exact ⟨by rw [hab, hst], hn⟩

theorem get_asset_key_data (r : DltResource) :
    (DltDagsterTranslator.get_asset_key r)
      = [⟨['d', 'l', 't', '_'] ++ (r.source_name.data ++ '_' :: r.name.data)⟩] := by
  rw [DltDagsterTranslator.get_asset_key]
  congr 1
  apply congrArg String.mk
  simp [String.data_append]

theorem string_eq_of_data (a b : String) (h : a.data = b.data) : a = b := by
  cases a
  cases b
  exact congrArg String.mk h

/-- C7: normalization (`_recursive_cast` / `_cast_load_info_metadata`) maps a
dict to a new dict with the same keys and normalization applied to each
value, a list to a new list with normalization applied elementwise, a
pendulum `DateTime` or `Timezone` to its string form, and returns every
other value unchanged; being a pure function of its input, it never
mutates the input structure. -/
theorem cast_contract_c7 :
    (∀ mapping : List (String × JValue),
        cast_load_info_metadata mapping
          = mapping.map (fun kv => (kv.1, recursiveCast kv.2)))
    ∧ (∀ kvs : List (String × JValue),
        recursiveCast (.dict kvs) = .dict (kvs.map (fun kv => (kv.1, recursiveCast kv.2))))
    ∧ (∀ xs : List JValue, recursiveCast (.list xs) = .list (xs.map recursiveCast))
    ∧ (∀ s : String, recursiveCast (.datetime s) = .str s)
    ∧ (∀ s : String, recursiveCast (.timezone s) = .str s)
    ∧ (∀ v : JValue, v.isDict = false → v.isList = false → v.isRich = false →
        recursiveCast v = v) :=
  ⟨fun mapping => castPairs_eq_map mapping,
   fun kvs => by rw [recursiveCast, castPairs_eq_map],
   fun xs => by rw [recursiveCast, castList_eq_map],
   fun _ => rfl,
   fun _ => rfl,
   recursiveCast_other⟩

/-- C7 witness: the contract evaluated at concrete inputs — a scalar is
unchanged and a timestamp becomes its string form. -/
theorem cast_contract_c7_witness :
    recursiveCast (JValue.int 7) = JValue.int 7
    ∧ recursiveCast (JValue.datetime "2024-01-01T00:00:00+00:00")
        = JValue.str "2024-01-01T00:00:00+00:00" :=
  ⟨cast_contract_c7.2.2.2.2.2 (JValue.int 7) rfl rfl rfl,
   cast_contract_c7.2.2.2.1 "2024-01-01T00:00:00+00:00"⟩

/-- C8: normalization is idempotent on every value, and every value built
only from plain scalars, lists and dicts (no rich values) is left
completely unchanged. -/
theorem cast_idempotent_c8 :
    (∀ x : JValue, recursiveCast (recursiveCast x) = recursiveCast x)
    ∧ (∀ x : JValue, x.isPlain = true → recursiveCast x = x) :=
  ⟨recursiveCast_idem, recursiveCast_of_isPlain⟩

/-- C8 witness: idempotence and plain-value fixity at a concrete nested
value containing a timestamp. -/
theorem cast_idempotent_c8_witness :
    recursiveCast (recursiveCast
        (JValue.dict [("t", JValue.datetime "2024"), ("xs", JValue.list [JValue.int 1])]))
      = recursiveCast
        (JValue.dict [("t", JValue.datetime "2024"), ("xs", JValue.list [JValue.int 1])])
    ∧ recursiveCast (JValue.dict [("a", JValue.list [JValue.int 1, JValue.str "x"])])
        = JValue.dict [("a", JValue.list [JValue.int 1, JValue.str "x"])] :=
  ⟨cast_idempotent_c8.1 _,
   cast_idempotent_c8.2 (JValue.dict [("a", JValue.list [JValue.int 1, JValue.str "x"])]) rfl⟩

/-- C10: normalization is permissive and total — any value that is not a
dict, not a list and not a pendulum rich value is returned unchanged (no
exception path exists), and the walk does not descend into other container
kinds, so a rich value nested inside a tuple passes through unconverted. -/
theorem cast_permissive_c10 :
    (∀ v : JValue, v.isDict = false → v.isList = false → v.isRich = false →
        recursiveCast v = v)
    ∧ (∀ xs : List JValue, recursiveCast (.tuple xs) = .tuple xs)
    ∧ (∀ s : String, recursiveCast (.tuple [.datetime s]) = .tuple [.datetime s]) :=
  ⟨recursiveCast_other, fun _ => rfl, fun _ => rfl⟩

/-- C10 witness: a timestamp nested inside a tuple passes through the
normalizer unconverted. -/
theorem cast_permissive_c10_witness :
    recursiveCast (JValue.tuple [JValue.datetime "2024-01-01T00:00:00+00:00"])
      = JValue.tuple [JValue.datetime "2024-01-01T00:00:00+00:00"] :=
  cast_permissive_c10.1 (JValue.tuple [JValue.datetime "2024-01-01T00:00:00+00:00"])
    rfl rfl rfl

/-- C2 counterexample: two resources with distinct (source name, resource
name) pairs whose derived asset keys coincide, because plain underscore
concatenation is ambiguous: `("a_b", "c")` and `("a", "b_c")` both derive
`AssetKey("dlt_a_b_c")`. -/
theorem get_asset_key_collision_c2 :
    ((DltResource.mk "a_b" "c" "c").source_name, (DltResource.mk "a_b" "c" "c").name)
        ≠ ((DltResource.mk "a" "b_c" "b_c").source_name, (DltResource.mk "a" "b_c" "b_c").name)
    ∧ DltDagsterTranslator.get_asset_key (DltResource.mk "a_b" "c" "c")
        = DltDagsterTranslator.get_asset_key (DltResource.mk "a" "b_c" "b_c") := by
  constructor
  · decide
  · rfl

/-- C2 (amended): the default key derivation is injective over
(source name, resource name) pairs provided the source names contain no
underscore; distinct pairs then derive distinct asset keys. -/
theorem get_asset_key_injective_c2 (r1 r2 : DltResource)
    (h1 : '_' ∉ r1.source_name.data) (h2 : '_' ∉ r2.source_name.data)
    (hne : (r1.source_name, r1.name) ≠ (r2.source_name, r2.name)) :
    DltDagsterTranslator.get_asset_key r1 ≠ DltDagsterTranslator.get_asset_key r2 := by
  intro h
  rw [get_asset_key_data, get_asset_key_data] at h
  simp only [List.cons.injEq, and_true] at h
  have h' := List.append_cancel_left (congrArg String.data h)
  obtain ⟨hs, hn⟩ :=
    underscore_split r1.source_name.data r2.source_name.data r1.name.data r2.name.data h1 h2 h'
  apply hne
  rw [string_eq_of_data _ _ hs, string_eq_of_data _ _ hn]

/-- C2 witness: two well-formed resources of the same underscore-free
source derive distinct keys. -/
theorem get_asset_key_injective_c2_witness :
    DltDagsterTranslator.get_asset_key alphaRes ≠ DltDagsterTranslator.get_asset_key betaRes :=
  get_asset_key_injective_c2 alphaRes betaRes (by decide) (by decide) (by decide)

/-- C4: in a full (non-subset) run — where the selected key set covers the
whole unit of work, one key per resource — the execution pairing has the
length of the source's resource collection and its resource components are
exactly the collection, each resource exactly once, in order. -/
theorem full_run_pairing_c4 (context : Context) (dlt_source : DltSource)
    (hfull : context.is_subset = false)
    (hlen : context.selected_asset_keys.length = dlt_source.resources.length) :
    (executionPairing context dlt_source).length = dlt_source.resources.length
    ∧ (executionPairing context dlt_source).map Prod.snd = dlt_source.resources := by
  simp only [executionPairing, hfull, Bool.false_eq_true, if_false]
  constructor
  · rw [List.length_zip, hlen, Nat.min_self]
  · exact List.map_snd_zip _ _ (le_of_eq hlen.symm)

/-- C4 witness: the full-run pairing over the two-resource source covers
both resources exactly once. -/
theorem full_run_pairing_c4_witness :
    (executionPairing
        (Context.mk .assetExecution
          [DltDagsterTranslator.get_asset_key alphaRes,
           DltDagsterTranslator.get_asset_key betaRes] false [])
        (DltSource.mk [alphaRes, betaRes])).length
      = (DltSource.mk [alphaRes, betaRes]).resources.length
    ∧ (executionPairing
        (Context.mk .assetExecution
          [DltDagsterTranslator.get_asset_key alphaRes,
           DltDagsterTranslator.get_asset_key betaRes] false [])
        (DltSource.mk [alphaRes, betaRes])).map Prod.snd
      = (DltSource.mk [alphaRes, betaRes]).resources :=
  full_run_pairing_c4 _ _ rfl rfl

/-- C5: when the stored references resolve, `run` yields exactly one
completion record per entry of the execution pairing, in pairing order:
the record list has the pairing's length, its keys are the pairing's
asset keys in order, its metadata entries are the extraction of each
paired resource from the single pipeline report, and the pairing's
resource components are a subsequence of the native resource-collection
order (filtered, never re-sorted). -/
theorem run_records_c5 (context : Context) (first_asset_metadata : AssetMetadata)
    (dlt_source : DltSource) (dlt_pipeline : Pipeline)
    (hhead : context.metadata_by_key_values.head? = some first_asset_metadata)
    (hsrc : first_asset_metadata.meta_source = some dlt_source)
    (hpip : first_asset_metadata.meta_pipeline = some dlt_pipeline) :
    (DltDagsterResource.run context).map List.length
        = .ok (executionPairing context dlt_source).length
    ∧ (DltDagsterResource.run context).map (fun records => records.map CompletionRecord.key)
        = .ok ((executionPairing context dlt_source).map Prod.fst)
    ∧ (DltDagsterResource.run context).map (fun records => records.map CompletionRecord.meta)
        = .ok ((executionPairing context dlt_source).map (fun p =>
            extract_resource_metadata p.2 (dlt_pipeline (narrowedSource context dlt_source))))
    ∧ List.Sublist ((executionPairing context dlt_source).map Prod.snd)
        dlt_source.resources := by
  obtain ⟨ctype, keys, subs, mvals⟩ := context
  cases mvals with
  | nil => simp at hhead
  | cons m rest =>
    simp only [List.head?_cons, Option.some.injEq] at hhead
    subst hhead
    obtain ⟨msrc, mpip⟩ := m
    have hsrc' : msrc = some dlt_source := hsrc
    have hpip' : mpip = some dlt_pipeline := hpip
    subst hsrc'
    subst hpip'
    refine ⟨?_, ?_, ?_, ?_⟩
    · simp [DltDagsterResource.run, Except.map, List.length_map]
    · cases ctype <;>
        simp [DltDagsterResource.run, Except.map, List.map_map, Function.comp,
          CompletionRecord.key]
    · cases ctype <;>
        simp [DltDagsterResource.run, Except.map, List.map_map, Function.comp,
          CompletionRecord.meta]
    · simp only [executionPairing]
      cases subs with
      | false => simpa using map_snd_zip_sublist' keys dlt_source.resources
      | true =>
        simp only [if_true]
        exact ((List.filter_sublist _).map Prod.snd).trans
          (map_snd_zip_sublist' keys dlt_source.resources)

/-- C5 witness: the record count equals the pairing length, and the
pairing's resources respect collection order, on a concrete full run. -/
theorem run_records_c5_witness :
    (DltDagsterResource.run opCtx).map List.length
        = .ok (executionPairing opCtx (DltSource.mk [alphaRes])).length
    ∧ List.Sublist ((executionPairing opCtx (DltSource.mk [alphaRes])).map Prod.snd)
        (DltSource.mk [alphaRes]).resources :=
  ⟨(run_records_c5 opCtx (AssetMetadata.mk (some (DltSource.mk [alphaRes]))
      (some emptyPipeline)) (DltSource.mk [alphaRes]) emptyPipeline rfl rfl rfl).1,
   (run_records_c5 opCtx (AssetMetadata.mk (some (DltSource.mk [alphaRes]))
      (some emptyPipeline)) (DltSource.mk [alphaRes]) emptyPipeline rfl rfl rfl).2.2.2⟩

/-- C9: `run` raises its configuration error exactly when the stored
source reference or the stored pipeline reference is missing from the
first asset's build-time metadata; the error is returned in place of any
completion records, and when the source reference is missing it is raised
regardless of which pipeline is attached — i.e. before any pipeline
execution. -/
theorem run_configurationError_iff_c9 (context : Context)
    (first_asset_metadata : AssetMetadata)
    (hhead : context.metadata_by_key_values.head? = some first_asset_metadata) :
    (DltDagsterResource.run context = .error .configurationError ↔
      (first_asset_metadata.meta_source = none
        ∨ first_asset_metadata.meta_pipeline = none))
    ∧ (first_asset_metadata.meta_source = none →
        ∀ p : Pipeline, DltDagsterResource.run (context.withFirstPipeline p)
          = .error .configurationError) := by
  obtain ⟨ctype, keys, subs, mvals⟩ := context
  cases mvals with
  | nil => simp at hhead
  | cons m rest =>
    simp only [List.head?_cons, Option.some.injEq] at hhead
    subst hhead
    obtain ⟨msrc, mpip⟩ := m
    cases msrc <;> cases mpip <;>
      simp [DltDagsterResource.run, Context.withFirstPipeline]

/-- C9 witness: with the source reference missing, `run` returns the
configuration error, whatever pipeline is attached. -/
theorem run_configurationError_iff_c9_witness :
    DltDagsterResource.run noSourceCtx = .error .configurationError
    ∧ DltDagsterResource.run (noSourceCtx.withFirstPipeline emptyPipeline)
        = .error .configurationError :=
  ⟨(run_configurationError_iff_c9 noSourceCtx
      (AssetMetadata.mk none (some emptyPipeline)) rfl).1.mpr (Or.inl rfl),
   (run_configurationError_iff_c9 noSourceCtx
      (AssetMetadata.mk none (some emptyPipeline)) rfl).2 rfl emptyPipeline⟩

/-- C1 (code bug, evaluated): in a subset run over `[alpha, beta]`
requesting only beta's derived key, the pairing built by `run` binds
beta's key to resource `alpha` — a resource whose own derived key is not
in the requested set — resource `beta` is absent, and the source is
narrowed to `alpha`; the claimed pairing `[(dlt_src_beta, beta)]` is not
produced, because the code zips the selected keys positionally against
the resource collection and its membership filter can never remove a
pair. -/
theorem subset_pairing_misaligned_c1 :
    executionPairing subsetCtx (DltSource.mk [alphaRes, betaRes])
        = [(DltDagsterTranslator.get_asset_key betaRes, alphaRes)]
    ∧ DltDagsterTranslator.get_asset_key alphaRes ∉ subsetCtx.selected_asset_keys
    ∧ DltDagsterTranslator.get_asset_key betaRes ∈ subsetCtx.selected_asset_keys
    ∧ narrowedSource subsetCtx (DltSource.mk [alphaRes, betaRes])
        = DltSource.mk [alphaRes] := by
  refine ⟨by decide, by decide, by decide, by decide⟩

/-- C3 (code bug, evaluated): in a subset run requesting a key derivable
from no resource of the source, the pairing is nonetheless nonempty — the
positional zip pairs the unknown key with resource `alpha` — and `run`
yields one completion record instead of the claimed zero. -/
theorem disjoint_keys_still_runs_c3 :
    (∀ r ∈ (DltSource.mk [alphaRes]).resources,
        DltDagsterTranslator.get_asset_key r ∉ gammaCtx.selected_asset_keys)
    ∧ executionPairing gammaCtx (DltSource.mk [alphaRes])
        = [(["dlt_src_gamma"], alphaRes)]
    ∧ DltDagsterResource.run gammaCtx
        = .ok [CompletionRecord.materializeResult ["dlt_src_gamma"]
            [("jobs", JValue.list [])]] := by
  refine ⟨by decide, by decide, ?_⟩
  rfl

/-- C6: for any resource with target table `T` and any run report whose
`load_packages` entry is a list of packages and whose jobs carry
non-rich `table_name` fields, the `jobs` entry of
`extract_resource_metadata` is exactly the job records across all load
packages whose table-name field equals `T`, in their original sequence
order (jobs for other tables interleaved or not), each record normalized. -/
theorem extract_jobs_c6 (resource : DltResource) (load_info : LoadInfo)
    (pkgs : List JValue)
    (hlp : dictGet load_info.asdict "load_packages" (JValue.list []) = JValue.list pkgs)
    (hrich : ∀ p ∈ pkgs, ∀ j ∈ (dictGet p.toDict "jobs" (JValue.list [])).toList,
        (dictGet j.toDict "table_name" JValue.null).isRich = false) :
    dictGet (extract_resource_metadata resource load_info) "jobs" JValue.null
      = JValue.list
          (((pkgs.flatMap (fun p => (dictGet p.toDict "jobs" (JValue.list [])).toList)).filter
              (fun j => (dictGet j.toDict "table_name" JValue.null).eqStr
                resource.table_name)).map recursiveCast) := by
  simp only [extract_resource_metadata]
  rw [dictGet_jobs_of_base]
  congr 1
  rw [cast_load_info_metadata,
    show JValue.list ([] : List JValue) = recursiveCast (JValue.list []) from rfl,
    dictGet_castPairs, recursiveCast_list_nil, hlp, recursiveCast, JValue.toList]
  exact castJobs_comm resource.table_name pkgs hrich

/-- C6 witness: Scenario C — two load packages, one `orders` job and one
`customers` job; extracting for `orders` yields a jobs list of length one
holding only the `orders` job. -/
theorem extract_jobs_c6_witness :
    dictGet scenarioCReport.asdict "load_packages" (JValue.list [])
        = JValue.list [JValue.dict [("jobs", JValue.list [ordersJob])],
            JValue.dict [("jobs", JValue.list [customersJob])]]
    ∧ dictGet (extract_resource_metadata ordersRes scenarioCReport) "jobs" JValue.null
        = JValue.list [ordersJob] := by
  refine ⟨rfl, ?_⟩
  have h := extract_jobs_c6 ordersRes scenarioCReport
    [JValue.dict [("jobs", JValue.list [ordersJob])],
     JValue.dict [("jobs", JValue.list [customersJob])]] rfl (by decide)
  rw [h]
  rfl
